import Mathlib

/-!
Verification development for the coverage-guided mutational fuzzing engine
of the SOEN7481 fuzzing assignment repository.

The Python sources are shallowly embedded:

* Python's global `random` module is modelled as an abstract deterministic
  stream of natural numbers (`RNG`): every primitive draw (`random.choice`,
  `random.randint`, `random.choices`) consumes one stream value.  Claims
  about campaigns quantify over every such stream.
* The binary coverage dictionaries (`coverage_map`, `current_coverage_map`,
  branch -> 1) are modelled by their key lists in insertion order
  (`insertKey` adds a key only when absent, exactly like `d[k] = 1`).
* Python exceptions are modelled by `Option`/`Except`: an operation that can
  raise returns `none`/`.error`, and callers that catch exceptions inspect
  that value; coverage recorded before a raise is kept, as with the global
  map in the source.
-/

namespace S2P

/-- Abstract model of Python's seeded `random` module: a deterministic
stream of naturals together with the position of the next draw.  A fixed
seed corresponds to a fixed stream function. -/
structure RNG where
  stream : Nat → Nat
  pos : Nat

/-- Draw the next raw value from the random source. -/
def RNG.next (g : RNG) : Nat × RNG :=
  (g.stream g.pos, ⟨g.stream, g.pos + 1⟩)

/-- Model of `random.choice(xs)`: uniform selection is modelled by reducing
one raw draw modulo the length; raises `IndexError` (here `none`) on an
empty sequence. -/
def choice {α : Type} (g : RNG) (xs : List α) : Option (α × RNG) :=
  match xs with
  | [] => none
  | x :: _ =>
    let (v, g') := g.next
    some (xs.getD (v % xs.length) x, g')

/-- Model of `random.randint(a, b)` (inclusive bounds): raises `ValueError`
(here `none`) when the range is empty, which happens in the sources exactly
when a mutator computes `randint(0, len(seed) - 1)` on an empty seed. -/
def randint (g : RNG) (a : Nat) (b : Int) : Option (Nat × RNG) :=
  if b < (a : Int) then none
  else
    let (v, g') := g.next
    some (a + v % (b - a + 1).toNat, g')

/-- Binary coverage recording `coverage_map[branch] = 1`, viewed on the
key list of the dictionary: a key is appended only when not yet present,
preserving dictionary insertion order. -/
def insertKey (m : List String) (b : String) : List String :=
  if b ∈ m then m else m ++ [b]

/-- Union of a per-iteration scope into a persistent map
(`for branch in temp_map: saved_map[branch] = 1`). -/
def mergeCov (m : List String) (temp : List String) : List String :=
  temp.foldl insertKey m

/-- The key list of the dictionary built by recording every branch of a
trace in order (`temp_map` built from scratch during one iteration). -/
def dedupKeys (trace : List String) : List String :=
  trace.foldl insertKey []

/-- One `record_coverage(branch)` call on an execution trace: the raw
trace keeps every call, in order (duplicates are collapsed by
`dedupKeys`/`mergeCov` when the dictionary view is taken). -/
def record (cov : List String) (b : String) : List String :=
  cov ++ [b]

/-- Characters stripped by Python's `str.strip()`. -/
def pySpace (c : Char) : Bool :=
  c = ' ' || c = '\t' || c = '\n' || c = '\r' || c = '\x0b' || c = '\x0c'

/-- Python `text.strip()` on a character list. -/
def pyStrip (s : List Char) : List Char :=
  ((s.dropWhile pySpace).reverse.dropWhile pySpace).reverse

/-- Python `text.split('\n')`: splits at every newline and keeps empty
pieces. -/
def splitLines : List Char → List (List Char)
  | [] => [[]]
  | c :: rest =>
    let r := splitLines rest
    if c = '\n' then [] :: r
    else
      match r with
      | [] => [[c]]
      | l :: ls => (c :: l) :: ls

/-- Python's `string.printable` (100 characters: digits, lowercase,
uppercase, punctuation, whitespace). -/
def pyPrintable : List Char :=
  ("0123456789abcdefghijklmnopqrstuvwxyzABCDEFGHIJKLMNOPQRSTUVWXYZ!\"#$%&\x27()*+,-./:;<=>?@[\\]^_\x60\x7b|\x7d~ \t\n\r\x0b\x0c").data

/-- Python `string.ascii_letters + string.digits + "+-*/=(); \n"`, the character
pool of `toy_lang.py`'s `random_code_string` and `mutate_string`. -/
def toyChars : List Char :=
  ("abcdefghijklmnopqrstuvwxyzABCDEFGHIJKLMNOPQRSTUVWXYZ0123456789+-*/=(); \n").data

/-- The three unstructured mutation types shared by all mutators. -/
def mutTypes : List String :=
  ["insert", "delete", "replace"]

/-- Maze data as parsed by `Maze.from_string`: the grid of characters and
the start/finish coordinates.  `rows`/`cols` are the derived attributes of
the Python object. -/
structure Maze where
  grid : List (List Char)
  start : Nat × Nat
  finish : Nat × Nat
deriving DecidableEq, Repr

/-- Python `len(grid)`. -/
def Maze.rows (m : Maze) : Nat := m.grid.length

/-- Python `len(grid[0])` (0 when the grid is empty). -/
def Maze.cols (m : Maze) : Nat := (m.grid.headD []).length

/-- Character scan of one maze row in `Maze.from_string`: updates the
start/finish positions, records the per-character branches, and raises
(`.error`) on duplicate start or finish markers. -/
def scanRow (r : Nat) :
    List Char → Nat → Option (Nat × Nat) → Option (Nat × Nat) → List String →
    Except Unit (Option (Nat × Nat) × Option (Nat × Nat)) × List String
  | [], _, start, fin, cov => (.ok (start, fin), cov)
  | ch :: rest, c, start, fin, cov =>
    if ch = 'S' then
      match start with
      | none => scanRow r rest (c + 1) (some (r, c)) fin (record cov "found_start")
      | some _ => (.error (), record cov "multiple_start")
    else if ch = 'F' then
      match fin with
      | none => scanRow r rest (c + 1) start (some (r, c)) (record cov "found_finish")
      | some _ => (.error (), record cov "multiple_finish")
    else if ch = '#' ∨ ch = '.' ∨ ch = ' ' then
      scanRow r rest (c + 1) start fin cov
    else
      scanRow r rest (c + 1) start fin (record cov "invalid_char")

/-- Row loop of `Maze.from_string`: checks rectangularity against the
length of the first line and scans each row. -/
def scanRows :
    List (List Char) → Nat → Nat → Option (Nat × Nat) → Option (Nat × Nat) → List String →
    Except Unit (Option (Nat × Nat) × Option (Nat × Nat)) × List String
  | [], _, _, start, fin, cov => (.ok (start, fin), cov)
  | line :: rest, r, expected, start, fin, cov =>
    if line.length ≠ expected then (.error (), record cov "non_rectangular")
    else
      match scanRow r line 0 start fin cov with
      | (.error e, cov') => (.error e, cov')
      | (.ok (s', f'), cov') => scanRows rest (r + 1) expected s' f' cov'

/-- Embedding of `Maze.from_string(text)`: returns the parsed maze (or `none` when a
`ValueError` is raised) together with the coverage recorded on the way. -/
def Maze.fromString (text : String) (cov : List String) : Option Maze × List String :=
  let t := pyStrip text.data
  if t = [] then (none, record cov "empty_input")
  else
    let lines := splitLines t
    let expected := (lines.headD []).length
    match scanRows lines 0 expected none none cov with
    | (.error _, cov') => (none, cov')
    | (.ok (start, fin), cov') =>
      match start with
      | none => (none, record cov' "no_start")
      | some s =>
        match fin with
        | none => (none, record cov' "no_finish")
        | some f => (some ⟨lines, s, f⟩, record cov' "maze_parsed")

/-- The four BFS directions of `find_shortest_path`, applied to a cell;
signed coordinates model Python's `r + dr` which may be `-1`. -/
def neighborCells (r c : Nat) : List (Int × Int) :=
  [((r : Int) - 1, (c : Int)), ((r : Int) + 1, (c : Int)),
   ((r : Int), (c : Int) - 1), ((r : Int), (c : Int) + 1)]

/-- Inner direction loop of the BFS: bounds check, visited check, wall
check, then enqueue and mark visited (recording `queue_append`).  The grid
access `self.grid[nr][nc]` is guarded by the bounds check in the source;
the default of `getD` is therefore never used. -/
def visitNeighbors (m : Maze) (path : List (Nat × Nat)) :
    List (Int × Int) → List ((Nat × Nat) × List (Nat × Nat)) → List (Nat × Nat) → List String →
    List ((Nat × Nat) × List (Nat × Nat)) × List (Nat × Nat) × List String
  | [], queue, visited, cov => (queue, visited, cov)
  | (nr, nc) :: rest, queue, visited, cov =>
    if 0 ≤ nr ∧ nr < (m.rows : Int) ∧ 0 ≤ nc ∧ nc < (m.cols : Int) then
      let p : Nat × Nat := (nr.toNat, nc.toNat)
      if p ∉ visited ∧ (m.grid.getD p.1 []).getD p.2 ' ' ≠ '#' then
        visitNeighbors m path rest (queue ++ [(p, path ++ [p])]) (visited ++ [p])
          (record cov "queue_append")
      else visitNeighbors m path rest queue visited cov
    else visitNeighbors m path rest queue visited cov

/-- BFS loop of `find_shortest_path`.  The loop of the source terminates
because every enqueue inserts a fresh cell into `visited`, so at most
`rows * cols` dequeues can happen; `fuel` makes that bound explicit and is
instantiated with `rows * cols + 1`, which the bound shows is never
exhausted. -/
def bfsLoop (m : Maze) :
    Nat → List ((Nat × Nat) × List (Nat × Nat)) → List (Nat × Nat) → List String →
    Option (List (Nat × Nat)) × List String
  | 0, _, _, cov => (none, cov)
  | _ + 1, [], _, cov => (none, record cov "no_path")
  | fuel + 1, (rc, path) :: queue, visited, cov =>
    if rc = m.finish then (some path, record cov "path_found")
    else
      let (queue', visited', cov') :=
        visitNeighbors m path (neighborCells rc.1 rc.2) queue visited cov
      bfsLoop m fuel queue' visited' cov'

/-- Embedding of `Maze.find_shortest_path()`: BFS from start, recording `bfs_start`,
`queue_append`, and finally `path_found` or `no_path`. -/
def Maze.findShortestPath (m : Maze) (cov : List String) :
    Option (List (Nat × Nat)) × List String :=
  let cov := record cov "bfs_start"
  bfsLoop m (m.rows * m.cols + 1) [(m.start, [m.start])] [m.start] cov

/-- The maze SUT as executed inside the fuzzing loops' `try` block:
`Maze.from_string(input)` followed by `find_shortest_path()`.  Returns the
trace of `record_coverage` calls and whether an exception escaped (only
parsing raises). -/
def mazeSutExec (input : String) : List String × Bool :=
  match Maze.fromString input [] with
  | (some m, cov) => ((m.findShortestPath cov).2, false)
  | (none, cov) => (cov, true)

/-- One cell draw of `generate_random_maze_string`: models
`random.choices(['#', '.', ' '], weights=[30, 60, 10])[0]` by one raw draw
reduced modulo the weight total, selected through the cumulative
thresholds. -/
def mazeCellChar (g : RNG) : Char × RNG :=
  let (v, g') := g.next
  (if v % 100 < 30 then '#' else if v % 100 < 90 then '.' else ' ', g')

/-- Cell loop of one maze row (`for c in range(cols)`): start and finish
positions get `'S'`/`'F'`, every other cell consumes one weighted draw. -/
def genCells (r : Nat) (sp fp : Nat × Nat) : Nat → Nat → RNG → List Char × RNG
  | _, 0, g => ([], g)
  | c, n + 1, g =>
    if (r, c) = sp then
      let (rest, g') := genCells r sp fp (c + 1) n g
      ('S' :: rest, g')
    else if (r, c) = fp then
      let (rest, g') := genCells r sp fp (c + 1) n g
      ('F' :: rest, g')
    else
      let (ch, g1) := mazeCellChar g
      let (rest, g2) := genCells r sp fp (c + 1) n g1
      (ch :: rest, g2)

/-- Row loop of `generate_random_maze_string` (`for r in range(rows)`). -/
def genRows (sp fp : Nat × Nat) (cols : Nat) : Nat → Nat → RNG → List (List Char) × RNG
  | _, 0, g => ([], g)
  | r, n + 1, g =>
    let (row, g1) := genCells r sp fp 0 cols g
    let (rest, g2) := genRows sp fp cols (r + 1) n g1
    (row :: rest, g2)

/-- Python `"\n".join(maze)`. -/
def joinLines : List (List Char) → List Char
  | [] => []
  | [l] => l
  | l :: ls => l ++ '\n' :: joinLines ls

/-- Embedding of `generate_random_maze_string()`: random dimensions in `[3, 10]`, random
start and finish positions, weighted wall/open/space cells. -/
def generateRandomMazeString (g : RNG) : Option (String × RNG) :=
  randint g 3 10 >>= fun (rows, g1) =>
  randint g1 3 10 >>= fun (cols, g2) =>
  randint g2 0 ((rows : Int) - 1) >>= fun (sr, g3) =>
  randint g3 0 ((cols : Int) - 1) >>= fun (sc, g4) =>
  randint g4 0 ((rows : Int) - 1) >>= fun (fr, g5) =>
  randint g5 0 ((cols : Int) - 1) >>= fun (fc, g6) =>
  let (lines, g7) := genRows (sr, sc) (fr, fc) cols 0 rows g6
  some (String.mk (joinLines lines), g7)

/-- Embedding of `mutate_maze_string(maze_str)`: empty seeds fall back to generating a
fresh random maze; otherwise insert/delete/replace one character at a
random position, with insert/replace characters drawn from
`string.printable + "\n"`. -/
def mutateMazeString (s : String) (g : RNG) : Option (String × RNG) :=
  if s.data = [] then generateRandomMazeString g
  else
    choice g mutTypes >>= fun (mt, g1) =>
    randint g1 0 ((s.data.length : Int) - 1) >>= fun (pos, g2) =>
    if mt = "insert" then
      choice g2 (pyPrintable ++ ['\n']) >>= fun (ch, g3) =>
      some (String.mk (s.data.take pos ++ ch :: s.data.drop pos), g3)
    else if mt = "delete" then
      some (String.mk (s.data.take pos ++ s.data.drop (pos + 1)), g2)
    else if mt = "replace" then
      choice g2 (pyPrintable ++ ['\n']) >>= fun (ch, g3) =>
      some (String.mk (s.data.take pos ++ ch :: s.data.drop (pos + 1)), g3)
    else some (s, g2)

/-- Character loop of `random_code_string`: `length` draws from the toy
character pool (the pool is non-empty, so `choice` never fails here). -/
def genToyChars : Nat → RNG → Option (List Char × RNG)
  | 0, g => some ([], g)
  | n + 1, g =>
    choice g toyChars >>= fun (c, g1) =>
    genToyChars n g1 >>= fun (rest, g2) =>
    some ((c :: rest), g2)

/-- Embedding of `random_code_string(max_len)`: a random length in `[0, max_len]`
followed by that many random characters; the result may be empty. -/
def randomCodeString (maxLen : Nat) (g : RNG) : Option (String × RNG) :=
  randint g 0 (maxLen : Int) >>= fun (len, g1) =>
  genToyChars len g1 >>= fun (cs, g2) =>
  some (String.mk cs, g2)

/-- Embedding of `mutate_string(s)` of `toy_lang.py`: empty seeds fall back to
`random_code_string(10)`; otherwise insert/delete/replace (the final
`else` branch is the replace case of the source). -/
def mutateString (s : String) (g : RNG) : Option (String × RNG) :=
  if s.data = [] then randomCodeString 10 g
  else
    choice g mutTypes >>= fun (mt, g1) =>
    randint g1 0 ((s.data.length : Int) - 1) >>= fun (pos, g2) =>
    if mt = "insert" then
      choice g2 toyChars >>= fun (ch, g3) =>
      some (String.mk (s.data.take pos ++ ch :: s.data.drop pos), g3)
    else if mt = "delete" then
      some (String.mk (s.data.take pos ++ s.data.drop (pos + 1)), g2)
    else
      choice g2 toyChars >>= fun (ch, g3) =>
      some (String.mk (s.data.take pos ++ ch :: s.data.drop (pos + 1)), g3)

/-- Embedding of `mutate_input(input_str)` of `complex_input.py`: an empty input is
replaced by one random printable character, the position draw is guarded
by a truthiness test, and delete/replace additionally require a non-empty
string (the trailing `return input_str` is the fall-through). -/
def mutateInput (s : String) (g : RNG) : Option (String × RNG) :=
  (if s.data = [] then
    choice g pyPrintable >>= fun (c, g0) => some (String.mk [c], g0)
   else some (s, g)) >>= fun (s', g0) =>
  choice g0 mutTypes >>= fun (mt, g1) =>
  (if s'.data = [] then some (0, g1)
   else randint g1 0 ((s'.data.length : Int) - 1)) >>= fun (pos, g2) =>
  if mt = "insert" then
    choice g2 pyPrintable >>= fun (ch, g3) =>
    some (String.mk (s'.data.take pos ++ ch :: s'.data.drop pos), g3)
  else if mt = "delete" ∧ 0 < s'.data.length then
    some (String.mk (s'.data.take pos ++ s'.data.drop (pos + 1)), g2)
  else if mt = "replace" ∧ 0 < s'.data.length then
    choice g2 pyPrintable >>= fun (ch, g3) =>
    some (String.mk (s'.data.take pos ++ ch :: s'.data.drop (pos + 1)), g3)
  else some (s', g2)

/-- State of a coverage-guided campaign: the corpus (`seeds`), the
persistent coverage map (`covMap`, dictionary key list), the tracked
covered-branch set (`total_covered_branches` / `covered_branches` /
`total_coverage`), the coverage history, and the random source. -/
structure CGState where
  seeds : List String
  covMap : List String
  total : List String
  history : List Nat
  rng : RNG

/-- The dictionary `temp_map` produced by one iteration of a guided
campaign on input `input`: the branches of the SUT run, with the sentinel
branch appended by the `except` handler when the SUT raised. -/
def iterCoverage (sut : String → List String × Bool) (sentinel : String)
    (input : String) : List String :=
  let (trace, raised) := sut input
  dedupKeys (if raised then record trace sentinel else trace)

/-- The body of one guided-fuzzing iteration after the mutated input has
been produced: compute the per-iteration scope, decide novelty against the
tracked covered set, append the input to the corpus on novelty, merge the
scope into the persistent map whether or not it was novel, and append the
merged map's size to the history.  `derive` selects how the tracked set is
maintained: `maze.py` re-derives it from the merged map
(`total_covered_branches = set(coverage_map.keys())`), while
`toy_lang.py`/`complex_input.py` extend it with the new branches only. -/
def stepCore (sut : String → List String × Bool) (sentinel : String)
    (derive : Bool) (st : CGState) (mutated : String) (g2 : RNG) : CGState :=
  let temp := iterCoverage sut sentinel mutated
  let newly := temp.filter (fun b => decide (b ∉ st.total))
  let seeds' := if newly.isEmpty then st.seeds else st.seeds ++ [mutated]
  let covMap' := mergeCov st.covMap temp
  let total' := if derive then covMap' else st.total ++ newly
  ⟨seeds', covMap', total', st.history ++ [covMap'.length], g2⟩

/-- One full guided-fuzzing iteration: pick a seed uniformly from the
corpus, mutate it, then run `stepCore`.  `none` models an engine-level
exception (empty corpus, or a mutator raising), which would abort the
campaign. -/
def stepGuided (mutate : String → RNG → Option (String × RNG))
    (sut : String → List String × Bool) (sentinel : String) (derive : Bool)
    (st : CGState) : Option CGState :=
  choice st.rng st.seeds >>= fun (seed, g1) =>
  mutate seed g1 >>= fun (mutated, g2) =>
  some (stepCore sut sentinel derive st mutated g2)

/-- Runs `iterations` sequential guided-fuzzing iterations. -/
def guidedLoop (mutate : String → RNG → Option (String × RNG))
    (sut : String → List String × Bool) (sentinel : String) (derive : Bool) :
    Nat → CGState → Option CGState
  | 0, st => some st
  | n + 1, st => (guidedLoop mutate sut sentinel derive n st).bind
      (stepGuided mutate sut sentinel derive)

/-- Seed-corpus initialisation of `coverage_guided_fuzzing` in `maze.py`:
`[generate_random_maze_string() for _ in range(5)]`. -/
def genSeedList : Nat → RNG → Option (List String × RNG)
  | 0, g => some ([], g)
  | n + 1, g =>
    generateRandomMazeString g >>= fun (s, g1) =>
    genSeedList n g1 >>= fun (rest, g2) =>
    some (s :: rest, g2)

/-- Embedding of `coverage_guided_fuzzing(iterations)` of `maze.py`: five random seed
mazes, the `mutate_maze_string` mutator, the maze SUT, sentinel branch
`"exception"`, and the re-derived covered set. -/
def mazeGuidedCampaign (iterations : Nat) (g : RNG) : Option CGState :=
  genSeedList 5 g >>= fun (seeds, g') =>
  guidedLoop mutateMazeString mazeSutExec "exception" true iterations
    ⟨seeds, [], [], [], g'⟩

/-- State of a pure-random campaign: persistent map, history, random
source. -/
structure PRState where
  covMap : List String
  history : List Nat
  rng : RNG

/-- One pure-random iteration (`pure_random_fuzzing` loop body): generate
a fresh input, run the SUT recording directly into the persistent map (the
`except` handler records the sentinel branch), then append the map size to
the history. -/
def stepPure (gen : RNG → Option (String × RNG))
    (sut : String → List String × Bool) (sentinel : String) (st : PRState) :
    Option PRState :=
  gen st.rng >>= fun (input, g') =>
  let covMap' := mergeCov st.covMap (iterCoverage sut sentinel input)
  some ⟨covMap', st.history ++ [covMap'.length], g'⟩

/-- Runs `iterations` sequential pure-random iterations. -/
def pureLoop (gen : RNG → Option (String × RNG))
    (sut : String → List String × Bool) (sentinel : String) :
    Nat → PRState → Option PRState
  | 0, st => some st
  | n + 1, st => (pureLoop gen sut sentinel n st).bind (stepPure gen sut sentinel)

/-- Embedding of `pure_random_fuzzing(iterations)` of `maze.py`. -/
def mazePureCampaign (iterations : Nat) (g : RNG) : Option PRState :=
  pureLoop generateRandomMazeString mazeSutExec "exception" iterations ⟨[], [], g⟩

/-- Generic insertion-ordered key set over a decidable type (used for the
line-number sets of the calculator drivers). -/
def insertKeyN (m : List Nat) (b : Nat) : List Nat :=
  if b ∈ m then m else m ++ [b]

/-- Fuzzing loop skeleton of `cgf_cal.py`: per iteration `i` the measured
line set (`cov.analysis`, external to the engine and modelled as the
abstract input `measured`) is compared against `unique_coverage`; on new
coverage the set is extended; the progress log is appended **only when
`i % 10 == 0`**.  Input selection and expression execution do not affect
the logged lengths and are not modelled. -/
def cgfLoop (measured : Nat → List Nat) : Nat → Nat → List Nat → List Nat → List Nat
  | _, 0, _, progress => progress
  | i, n + 1, unique, progress =>
    let covered := measured i
    let newLines := covered.filter (fun x => decide (x ∉ unique))
    let unique' := if newLines.isEmpty then unique else covered.foldl insertKeyN unique
    let progress' := if i % 10 = 0 then progress ++ [unique'.length] else progress
    cgfLoop measured (i + 1) n unique' progress'

/-- The list `coverage_progress` after the `cgf_cal.py` loop over `numIterations`
iterations. -/
def cgfCoverageProgress (measured : Nat → List Nat) (numIterations : Nat) : List Nat :=
  cgfLoop measured 0 numIterations [] []

/-- Logging skeleton of `fuzz_calculator` in `randomfz_cal.py`: for
`i in range(1, num_tests + 1)` a `(i, coverage_percent)` pair is appended
**only when `i % 50 == 0`** (the percentage measurement is external and
modelled as the abstract input `percent`). -/
def randomfzLoop (percent : Nat → Nat) : Nat → Nat → List (Nat × Nat) → List (Nat × Nat)
  | _, 0, progress => progress
  | i, n + 1, progress =>
    let progress' := if i % 50 = 0 then progress ++ [(i, percent i)] else progress
    randomfzLoop percent (i + 1) n progress'

/-- The list `coverage_over_time` after the `randomfz_cal.py` loop over `numTests`
tests. -/
def randomfzProgress (percent : Nat → Nat) (numTests : Nat) : List (Nat × Nat) :=
  randomfzLoop percent 1 numTests []

/-- Does `pat` occur at the head of `s`? (helper for Python's `in` on
strings). -/
def startsWithPat : List Char → List Char → Bool
  | [], _ => true
  | _ :: _, [] => false
  | p :: ps, c :: cs => p = c && startsWithPat ps cs

/-- Python's substring test `pat in s`. -/
def hasSub (pat : List Char) : List Char → Bool
  | [] => startsWithPat pat []
  | c :: cs => startsWithPat pat (c :: cs) || hasSub pat cs

/-- Success predicate of Python's `int(data)` on a string: surrounding
whitespace, an optional sign, then a non-empty digit run.  (Python 3 also
accepts single underscores between digits; none of the properties proved
below depend on exactly which strings convert.) -/
def pyIntParses (s : List Char) : Bool :=
  let t := pyStrip s
  let t' :=
    match t with
    | '+' :: rest => rest
    | '-' :: rest => rest
    | _ => t
  !t'.isEmpty && t'.all Char.isDigit

/-- The special-character pool of branch 5 of `process_input`. -/
def specialChars : List Char := ("!@#$%^&*()").data

/-- Python `str.isupper()`: at least one cased character and no cased
character lowercase (ASCII letters model the cased characters). -/
def pyIsUpper (d : List Char) : Bool :=
  d.any Char.isAlpha && d.all (fun c => !c.isAlpha || c.isUpper)

/-- Python `str.islower()`, dually. -/
def pyIsLower (d : List Char) : Bool :=
  d.any Char.isAlpha && d.all (fun c => !c.isAlpha || c.isLower)

/-- Embedding of `process_input(data)` of `complex_input.py`: records `start`, takes the
short-input early return for `len(data) < 3`, otherwise evaluates branches
2 through 10 in order, threading the coverage list and concatenating the
result fragments.  The single unguarded-looking character access `data[0]`
is modelled by a checked match returning `none` (an uncaught `IndexError`)
on the empty list, and the `int(data)` conversion is the decidable
predicate `pyIntParses` (its `ValueError` is caught in the source, branch
6). -/
def processInput (data : String) (cov : List String) : Option (List String × String) :=
  let cov := record cov "start"
  let d := data.data
  if d.length < 3 then
    let cov := record cov "len_short"
    if d.length = 0 then some (record cov "empty", "Too short." ++ " (empty)")
    else some (record cov "not_empty", "Too short.")
  else
    let cov := record cov "len_ok"
    match d with
    | [] => none
    | c0 :: _ =>
      let (cov, r2) :=
        if c0.isAlpha then (record cov "alpha_start", "Starts with alpha. ")
        else (record cov "non_alpha_start", "Does not start with alpha. ")
      let (cov, r3) :=
        if d.any Char.isDigit then (record cov "digit_found", "Has digit. ")
        else (record cov "no_digit", "No digit. ")
      let (cov, r4) :=
        if pyIsUpper d then (record cov "all_upper", "All upper. ")
        else if pyIsLower d then (record cov "all_lower", "All lower. ")
        else (record cov "mixed_case", "Mixed case. ")
      let (cov, r5) :=
        if d.any (fun ch => ch ∈ specialChars) then
          (record cov "special_char", "Special char found. ")
        else (record cov "no_special_char", "No special char. ")
      let (cov, r6) :=
        if pyIntParses d then (record cov "numeric", "Numeric input. ")
        else (record cov "non_numeric", "Non-numeric input. ")
      let (cov, r7) :=
        if d.length % 2 = 0 then (record cov "even_length", "Even length. ")
        else (record cov "odd_length", "Odd length. ")
      let (cov, r8) :=
        if hasSub ("hello").data (d.map Char.toLower) then
          (record cov "greeting", "Greeting detected. ")
        else (record cov "no_greeting", "No greeting. ")
      let (cov, r9) :=
        if 2 < (d.filter Char.isDigit).length then
          (record cov "many_digits", "Many digits. ")
        else (record cov "few_digits", "Few digits. ")
      let (cov, r10) :=
        if d = d.reverse then (record cov "palindrome", "Palindrome. ")
        else (record cov "not_palindrome", "Not a palindrome. ")
      some (cov, r2 ++ (r3 ++ (r4 ++ (r5 ++ (r6 ++ (r7 ++ (r8 ++ (r9 ++ r10))))))))

/-! ### Basic lemmas about the coverage-map primitives -/

theorem mem_insertKey {m : List String} {b b' : String} :
    b' ∈ insertKey m b ↔ b' ∈ m ∨ b' = b := by
  unfold insertKey
  split_ifs with h
  · constructor
    · exact Or.inl
    · rintro (hb | rfl)
      · exact hb
      · exact h
  · simp

theorem length_le_insertKey (m : List String) (b : String) :
    m.length ≤ (insertKey m b).length := by
  unfold insertKey
  split_ifs <;> simp

theorem mem_mergeCov {t : List String} :
    ∀ {m b}, b ∈ mergeCov m t ↔ b ∈ m ∨ b ∈ t := by
  unfold mergeCov
  induction t with
  | nil => simp
  | cons x xs ih =>
    intro m b
    simp only [List.foldl_cons]
    rw [ih, mem_insertKey]
    simp only [List.mem_cons]
    tauto

theorem length_le_mergeCov (t : List String) :
    ∀ m, m.length ≤ (mergeCov m t).length := by
  unfold mergeCov
  induction t with
  | nil => simp
  | cons x xs ih =>
    intro m
    simp only [List.foldl_cons]
    exact le_trans (length_le_insertKey m x) (ih (insertKey m x))

theorem mem_dedupKeys {t : List String} {b : String} :
    b ∈ dedupKeys t ↔ b ∈ t := by
  have : dedupKeys t = mergeCov [] t := rfl
  rw [this, mem_mergeCov]
  simp

theorem chain_le_append_last {h : List Nat} {a : Nat}
    (hc : List.Chain' (· ≤ ·) h) (hb : ∀ x ∈ h, x ≤ a) :
    List.Chain' (· ≤ ·) (h ++ [a]) := by
  induction h with
  | nil => simp
  | cons x xs ih =>
    cases xs with
    | nil =>
      simp only [List.cons_append, List.nil_append]
      exact List.Chain'.cons (hb x (by simp)) (by simp)
    | cons y ys =>
      rw [List.chain'_cons] at hc
      have := ih hc.2 (fun z hz => hb z (by simp [hz]))
      simp only [List.cons_append] at this ⊢
      exact List.Chain'.cons hc.1 this

/-! ### Lemmas about the random-source primitives -/

theorem choice_cons_eq {α : Type} (g : RNG) (x : α) (xs : List α) :
    choice g (x :: xs) =
      some ((x :: xs).getD (g.stream g.pos % (xs.length + 1)) x, ⟨g.stream, g.pos + 1⟩) :=
  rfl

theorem choice_isSome {α : Type} (g : RNG) {xs : List α} (h : xs ≠ []) :
    ∃ r, choice g xs = some r := by
  cases xs with
  | nil => exact absurd rfl h
  | cons x t => exact ⟨_, choice_cons_eq g x t⟩

theorem randint_eq_some (g : RNG) (a : Nat) (b : Int) (h : (a : Int) ≤ b) :
    randint g a b =
      some (a + g.stream g.pos % (b - a + 1).toNat, ⟨g.stream, g.pos + 1⟩) := by
  unfold randint
  rw [if_neg (not_lt.mpr h)]
  rfl

/-! ### The maze generator always yields a non-empty string -/

theorem option_bind_some {α β : Type} (a : α) (f : α → Option β) :
    (some a >>= f) = f a := rfl

theorem opt_bind_total {α β : Type} {e : Option α} {f : α → Option β}
    (he : ∃ x, e = some x) (hf : ∀ x, ∃ y, f x = some y) :
    ∃ y, (e >>= f) = some y := by
  obtain ⟨x, hx⟩ := he
  obtain ⟨y, hy⟩ := hf x
  exact ⟨y, by rw [hx, option_bind_some, hy]⟩

theorem opt_bind_spec {α β : Type} {e : Option α} {f : α → Option β}
    (Q : α → Prop) (P : β → Prop)
    (he : ∃ x, e = some x ∧ Q x) (hf : ∀ x, Q x → ∃ y, f x = some y ∧ P y) :
    ∃ y, (e >>= f) = some y ∧ P y := by
  obtain ⟨x, hx, hq⟩ := he
  obtain ⟨y, hy, hp⟩ := hf x hq
  exact ⟨y, by rw [hx, option_bind_some, hy], hp⟩

theorem genCells_fst_length :
    ∀ (n r c : Nat) (sp fp : Nat × Nat) (g : RNG),
      ((genCells r sp fp c n g).1).length = n := by
  intro n
  induction n with
  | zero => intro r c sp fp g; rfl
  | succ k ih =>
    intro r c sp fp g
    unfold genCells
    split_ifs with h1 h2 <;> simp [ih]

theorem genRows_succ_fst (sp fp : Nat × Nat) (cols r n : Nat) (g : RNG) :
    (genRows sp fp cols r (n + 1) g).1
      = (genCells r sp fp 0 cols g).1
        :: (genRows sp fp cols (r + 1) n (genCells r sp fp 0 cols g).2).1 := rfl

theorem joinLines_head_le (l : List Char) (ls : List (List Char)) :
    l.length ≤ (joinLines (l :: ls)).length := by
  cases ls with
  | nil => simp [joinLines]
  | cons h t =>
    simp only [joinLines, List.length_append, List.length_cons]
    omega

theorem joinLines_genRows_pos (sp fp : Nat × Nat) (cols r : Nat) (g : RNG)
    (n : Nat) (hn : 0 < n) (hc : 0 < cols) :
    0 < (joinLines ((genRows sp fp cols r n g).1)).length := by
  cases n with
  | zero => omega
  | succ m =>
    rw [genRows_succ_fst]
    refine lt_of_lt_of_le ?_ (joinLines_head_le _ _)
    rw [genCells_fst_length]
    exact hc

theorem generateRandomMazeString_spec (g : RNG) :
    ∃ r : String × RNG, generateRandomMazeString g = some r ∧ 1 ≤ r.1.data.length := by
  unfold generateRandomMazeString
  refine opt_bind_spec (fun x => 3 ≤ x.1) _
    ⟨_, randint_eq_some _ 3 10 (by norm_num), by omega⟩ ?_
  rintro ⟨rows, g1⟩ hq
  have hrows : 3 ≤ rows := hq
  refine opt_bind_spec (fun x => 3 ≤ x.1) _
    ⟨_, randint_eq_some _ 3 10 (by norm_num), by omega⟩ ?_
  rintro ⟨cols, g2⟩ hq2
  have hcols : 3 ≤ cols := hq2
  refine opt_bind_spec (fun _ => True) _
    ⟨_, randint_eq_some _ 0 _ (by push_cast; omega), trivial⟩ ?_
  rintro ⟨sr, g3⟩ -
  refine opt_bind_spec (fun _ => True) _
    ⟨_, randint_eq_some _ 0 _ (by push_cast; omega), trivial⟩ ?_
  rintro ⟨sc, g4⟩ -
  refine opt_bind_spec (fun _ => True) _
    ⟨_, randint_eq_some _ 0 _ (by push_cast; omega), trivial⟩ ?_
  rintro ⟨fr, g5⟩ -
  refine opt_bind_spec (fun _ => True) _
    ⟨_, randint_eq_some _ 0 _ (by push_cast; omega), trivial⟩ ?_
  rintro ⟨fc, g6⟩ -
  simp only []
  rcases hgr : genRows (sr, sc) (fr, fc) cols 0 rows g6 with ⟨lines, g7⟩
  refine ⟨_, rfl, ?_⟩
  have hpos := joinLines_genRows_pos (sr, sc) (fr, fc) cols 0 g6 rows
    (by omega) (by omega)
  rw [hgr] at hpos
  simpa using hpos

/-! ### Totality of the mutators: they never raise, on any input -/

theorem mutTypes_ne_nil : mutTypes ≠ [] := by simp [mutTypes]

theorem printable_newline_ne_nil : pyPrintable ++ ['\n'] ≠ [] := by simp

theorem pyPrintable_ne_nil : pyPrintable ≠ [] := by
  intro h
  have := congrArg List.length h
  rw [show pyPrintable.length = 100 from rfl] at this
  simp at this

theorem toyChars_ne_nil : toyChars ≠ [] := by
  intro h
  have := congrArg List.length h
  rw [show toyChars.length = 72 from rfl] at this
  simp at this

theorem mutateMazeString_empty (g : RNG) :
    ∃ r : String × RNG, mutateMazeString "" g = some r ∧ 1 ≤ r.1.data.length := by
  unfold mutateMazeString
  rw [if_pos rfl]
  exact generateRandomMazeString_spec g

theorem mutateMazeString_total (s : String) (g : RNG) :
    ∃ r, mutateMazeString s g = some r := by
  unfold mutateMazeString
  split_ifs with h
  · obtain ⟨r, hr, _⟩ := generateRandomMazeString_spec g
    exact ⟨r, hr⟩
  · have hlen : 1 ≤ s.data.length := List.length_pos.mpr h
    refine opt_bind_total (choice_isSome g mutTypes_ne_nil) ?_
    rintro ⟨mt, g1⟩
    refine opt_bind_total ⟨_, randint_eq_some g1 0 _ (by push_cast; omega)⟩ ?_
    rintro ⟨pos, g2⟩
    split_ifs with h1 h2 h3
    · exact opt_bind_total (choice_isSome g2 printable_newline_ne_nil)
        (by rintro ⟨ch, g3⟩; exact ⟨_, rfl⟩)
    · exact ⟨_, rfl⟩
    · exact opt_bind_total (choice_isSome g2 printable_newline_ne_nil)
        (by rintro ⟨ch, g3⟩; exact ⟨_, rfl⟩)
    · exact ⟨_, rfl⟩

theorem genToyChars_total : ∀ (n : Nat) (g : RNG), ∃ r, genToyChars n g = some r := by
  intro n
  induction n with
  | zero => intro g; exact ⟨_, rfl⟩
  | succ k ih =>
    intro g
    unfold genToyChars
    refine opt_bind_total (choice_isSome g toyChars_ne_nil) ?_
    rintro ⟨c, g1⟩
    refine opt_bind_total (ih g1) ?_
    rintro ⟨rest, g2⟩
    exact ⟨_, rfl⟩

theorem randomCodeString_total (maxLen : Nat) (g : RNG) :
    ∃ r, randomCodeString maxLen g = some r := by
  unfold randomCodeString
  refine opt_bind_total ⟨_, randint_eq_some g 0 _ (by push_cast; omega)⟩ ?_
  rintro ⟨len, g1⟩
  refine opt_bind_total (genToyChars_total len g1) ?_
  rintro ⟨cs, g2⟩
  exact ⟨_, rfl⟩

theorem mutateString_total (s : String) (g : RNG) :
    ∃ r, mutateString s g = some r := by
  unfold mutateString
  split_ifs with h
  · exact randomCodeString_total 10 g
  · have hlen : 1 ≤ s.data.length := List.length_pos.mpr h
    refine opt_bind_total (choice_isSome g mutTypes_ne_nil) ?_
    rintro ⟨mt, g1⟩
    refine opt_bind_total ⟨_, randint_eq_some g1 0 _ (by push_cast; omega)⟩ ?_
    rintro ⟨pos, g2⟩
    split_ifs with h1 h2
    · exact opt_bind_total (choice_isSome g2 toyChars_ne_nil)
        (by rintro ⟨ch, g3⟩; exact ⟨_, rfl⟩)
    · exact ⟨_, rfl⟩
    · exact opt_bind_total (choice_isSome g2 toyChars_ne_nil)
        (by rintro ⟨ch, g3⟩; exact ⟨_, rfl⟩)

theorem mutateInput_total (s : String) (g : RNG) :
    ∃ r, mutateInput s g = some r := by
  unfold mutateInput
  refine opt_bind_total ?_ ?_
  · split_ifs with h
    · exact opt_bind_total (choice_isSome g pyPrintable_ne_nil)
        (by rintro ⟨c, g0⟩; exact ⟨_, rfl⟩)
    · exact ⟨_, rfl⟩
  rintro ⟨s1, g0⟩
  refine opt_bind_total (choice_isSome g0 mutTypes_ne_nil) ?_
  rintro ⟨mt, g1⟩
  refine opt_bind_total ?_ ?_
  · split_ifs with h
    · exact ⟨_, rfl⟩
    · exact ⟨_, randint_eq_some g1 0 _
        (by have : 1 ≤ s1.data.length := List.length_pos.mpr h; push_cast; omega)⟩
  rintro ⟨pos, g2⟩
  split_ifs with h1 h2 h3
  · exact opt_bind_total (choice_isSome g2 pyPrintable_ne_nil)
      (by rintro ⟨ch, g3⟩; exact ⟨_, rfl⟩)
  · exact ⟨_, rfl⟩
  · exact opt_bind_total (choice_isSome g2 pyPrintable_ne_nil)
      (by rintro ⟨ch, g3⟩; exact ⟨_, rfl⟩)
  · exact ⟨_, rfl⟩

theorem genSeedList_spec : ∀ (n : Nat) (g : RNG),
    ∃ r : List String × RNG, genSeedList n g = some r ∧ r.1.length = n := by
  intro n
  induction n with
  | zero => intro g; exact ⟨_, rfl, rfl⟩
  | succ k ih =>
    intro g
    unfold genSeedList
    obtain ⟨r, hr, _⟩ := generateRandomMazeString_spec g
    refine opt_bind_spec (fun _ => True) _ ⟨r, hr, trivial⟩ ?_
    rintro ⟨s, g1⟩ -
    obtain ⟨q, hq, hql⟩ := ih g1
    refine opt_bind_spec (fun x => x.1.length = k) _ ⟨q, hq, hql⟩ ?_
    rintro ⟨rest, g2⟩ hrest
    refine ⟨_, rfl, ?_⟩
    have : rest.length = k := hrest
    simp [this]

/-! ### Helper lemmas about the campaign loops -/

theorem option_bind_some2 {α β : Type} (a : α) (f : α → Option β) :
    Option.bind (some a) f = f a := rfl

theorem stepCore_seeds (sut : String → List String × Bool) (sentinel : String)
    (derive : Bool) (st : CGState) (mu : String) (g2 : RNG) :
    (stepCore sut sentinel derive st mu g2).seeds =
      if ((iterCoverage sut sentinel mu).filter
          (fun b => decide (b ∉ st.total))).isEmpty
      then st.seeds else st.seeds ++ [mu] := rfl

theorem stepCore_covMap (sut : String → List String × Bool) (sentinel : String)
    (derive : Bool) (st : CGState) (mu : String) (g2 : RNG) :
    (stepCore sut sentinel derive st mu g2).covMap =
      mergeCov st.covMap (iterCoverage sut sentinel mu) := rfl

theorem stepCore_history (sut : String → List String × Bool) (sentinel : String)
    (derive : Bool) (st : CGState) (mu : String) (g2 : RNG) :
    (stepCore sut sentinel derive st mu g2).history =
      st.history ++ [(stepCore sut sentinel derive st mu g2).covMap.length] := rfl

theorem stepCore_seeds_cases (sut : String → List String × Bool) (sentinel : String)
    (derive : Bool) (st : CGState) (mu : String) (g2 : RNG) :
    ((stepCore sut sentinel derive st mu g2).seeds = st.seeds ++ [mu] ∧
      ∃ b, b ∈ iterCoverage sut sentinel mu ∧ b ∉ st.total) ∨
    ((stepCore sut sentinel derive st mu g2).seeds = st.seeds ∧
      ∀ b, b ∈ iterCoverage sut sentinel mu → b ∈ st.total) := by
  rw [stepCore_seeds]
  by_cases h : ((iterCoverage sut sentinel mu).filter
      (fun b => decide (b ∉ st.total))).isEmpty
  · right
    refine ⟨by rw [if_pos h], ?_⟩
    intro b hb
    by_contra hnb
    have hmem : b ∈ (iterCoverage sut sentinel mu).filter
        (fun b => decide (b ∉ st.total)) :=
      List.mem_filter.mpr ⟨hb, by simpa using hnb⟩
    rw [List.isEmpty_iff] at h
    rw [h] at hmem
    exact absurd hmem (List.not_mem_nil b)
  · left
    refine ⟨by rw [if_neg h], ?_⟩
    have hne : (iterCoverage sut sentinel mu).filter
        (fun b => decide (b ∉ st.total)) ≠ [] := by
      intro hnil
      exact h (by rw [hnil]; rfl)
    obtain ⟨b, hb⟩ := List.exists_mem_of_ne_nil _ hne
    have := List.mem_filter.mp hb
    exact ⟨b, this.1, by simpa using this.2⟩

theorem stepGuided_eq_some (mutate : String → RNG → Option (String × RNG))
    (hm : ∀ s g, ∃ r, mutate s g = some r)
    (sut : String → List String × Bool) (sentinel : String) (derive : Bool)
    (st : CGState) (hs : st.seeds ≠ []) :
    ∃ mu g2, stepGuided mutate sut sentinel derive st
      = some (stepCore sut sentinel derive st mu g2) := by
  obtain ⟨p, hp⟩ := choice_isSome st.rng hs
  rcases p with ⟨seed, g1⟩
  obtain ⟨q, hq⟩ := hm seed g1
  rcases q with ⟨mu, g2⟩
  refine ⟨mu, g2, ?_⟩
  unfold stepGuided
  rw [hp, option_bind_some]
  simp only []
  rw [hq, option_bind_some]

theorem guidedLoop_spec (mutate : String → RNG → Option (String × RNG))
    (hm : ∀ s g, ∃ r, mutate s g = some r)
    (sut : String → List String × Bool) (sentinel : String) (derive : Bool) :
    ∀ (n : Nat) (st : CGState), st.seeds ≠ [] →
    ∃ st', guidedLoop mutate sut sentinel derive n st = some st' ∧
      st'.seeds ≠ [] ∧
      (∃ t, st'.seeds = st.seeds ++ t) ∧
      st.covMap.length ≤ st'.covMap.length ∧
      (∀ b, b ∈ st.covMap → b ∈ st'.covMap) ∧
      st'.history.length = st.history.length + n ∧
      (∃ h, st'.history = st.history ++ h) ∧
      ((∀ x ∈ st.history, x ≤ st.covMap.length) → List.Chain' (· ≤ ·) st.history →
        (∀ x ∈ st'.history, x ≤ st'.covMap.length) ∧ List.Chain' (· ≤ ·) st'.history) := by
  intro n
  induction n with
  | zero =>
    intro st hs
    exact ⟨st, rfl, hs, ⟨[], by simp⟩, le_refl _, fun b hb => hb, by simp,
      ⟨[], by simp⟩, fun hb hc => ⟨hb, hc⟩⟩
  | succ k ih =>
    intro st hs
    obtain ⟨st1, hst1, hs1, ⟨t1, ht1⟩, hlen1, hmem1, hhl1, ⟨h1, hh1⟩, hchain1⟩ := ih st hs
    obtain ⟨mu, g2, hstep⟩ := stepGuided_eq_some mutate hm sut sentinel derive st1 hs1
    refine ⟨stepCore sut sentinel derive st1 mu g2, ?_, ?_, ?_, ?_, ?_, ?_, ?_, ?_⟩
    · show (guidedLoop mutate sut sentinel derive k st).bind
        (stepGuided mutate sut sentinel derive) = _
      rw [hst1, option_bind_some2, hstep]
    · rw [stepCore_seeds]
      split_ifs
      · exact hs1
      · simp [hs1]
    · rw [stepCore_seeds]
      split_ifs
      · exact ⟨t1, ht1⟩
      · exact ⟨t1 ++ [mu], by rw [ht1, List.append_assoc]⟩
    · rw [stepCore_covMap]
      exact le_trans hlen1 (length_le_mergeCov _ _)
    · intro b hb
      rw [stepCore_covMap, mem_mergeCov]
      exact Or.inl (hmem1 b hb)
    · rw [stepCore_history]
      simp [hhl1]
      omega
    · rw [stepCore_history, hh1]
      exact ⟨h1 ++ [(stepCore sut sentinel derive st1 mu g2).covMap.length],
        by rw [List.append_assoc]⟩
    · intro hb hc
      obtain ⟨hb1, hc1⟩ := hchain1 hb hc
      have hle : st1.covMap.length ≤
          (stepCore sut sentinel derive st1 mu g2).covMap.length := by
        rw [stepCore_covMap]
        exact length_le_mergeCov _ _
      constructor
      · intro x hx
        rw [stepCore_history] at hx
        rcases List.mem_append.mp hx with hx | hx
        · exact le_trans (hb1 x hx) hle
        · simp at hx
          omega
      · rw [stepCore_history]
        exact chain_le_append_last hc1
          (fun x hx => le_trans (hb1 x hx) hle)

theorem stepPure_some (gen : RNG → Option (String × RNG))
    (hg : ∀ g, ∃ r, gen g = some r)
    (sut : String → List String × Bool) (sentinel : String) (st : PRState) :
    ∃ st1, stepPure gen sut sentinel st = some st1 ∧
      st1.history = st.history ++ [st1.covMap.length] ∧
      st.covMap.length ≤ st1.covMap.length := by
  obtain ⟨p, hp⟩ := hg st.rng
  rcases p with ⟨input, g'⟩
  refine ⟨⟨mergeCov st.covMap (iterCoverage sut sentinel input),
    st.history ++ [(mergeCov st.covMap (iterCoverage sut sentinel input)).length], g'⟩,
    ?_, rfl, length_le_mergeCov _ _⟩
  unfold stepPure
  rw [hp, option_bind_some]

theorem pureLoop_spec (gen : RNG → Option (String × RNG))
    (hg : ∀ g, ∃ r, gen g = some r)
    (sut : String → List String × Bool) (sentinel : String) :
    ∀ (n : Nat) (st : PRState),
    ∃ st', pureLoop gen sut sentinel n st = some st' ∧
      st'.history.length = st.history.length + n ∧
      (∃ h, st'.history = st.history ++ h) ∧
      st.covMap.length ≤ st'.covMap.length ∧
      ((∀ x ∈ st.history, x ≤ st.covMap.length) → List.Chain' (· ≤ ·) st.history →
        (∀ x ∈ st'.history, x ≤ st'.covMap.length) ∧ List.Chain' (· ≤ ·) st'.history) := by
  intro n
  induction n with
  | zero =>
    intro st
    exact ⟨st, rfl, by simp, ⟨[], by simp⟩, le_refl _, fun hb hc => ⟨hb, hc⟩⟩
  | succ k ih =>
    intro st
    obtain ⟨st1, hst1, hhl1, ⟨h1, hh1⟩, hcl1, hchain1⟩ := ih st
    obtain ⟨st2, hstep, hh2, hcl2⟩ := stepPure_some gen hg sut sentinel st1
    refine ⟨st2, ?_, ?_, ?_, le_trans hcl1 hcl2, ?_⟩
    · show (pureLoop gen sut sentinel k st).bind (stepPure gen sut sentinel) = _
      rw [hst1, option_bind_some2, hstep]
    · rw [hh2]
      simp [hhl1]
      omega
    · rw [hh2, hh1]
      exact ⟨h1 ++ [st2.covMap.length], by rw [List.append_assoc]⟩
    · intro hb hc
      obtain ⟨hb1, hc1⟩ := hchain1 hb hc
      constructor
      · intro x hx
        rw [hh2] at hx
        rcases List.mem_append.mp hx with hx | hx
        · exact le_trans (hb1 x hx) hcl2
        · simp at hx
          omega
      · rw [hh2]
        exact chain_le_append_last hc1 (fun x hx => le_trans (hb1 x hx) hcl2)

theorem stepCore_total (sut : String → List String × Bool) (sentinel : String)
    (derive : Bool) (st : CGState) (mu : String) (g2 : RNG) :
    (stepCore sut sentinel derive st mu g2).total =
      if derive then mergeCov st.covMap (iterCoverage sut sentinel mu)
      else st.total ++ (iterCoverage sut sentinel mu).filter
        (fun b => decide (b ∉ st.total)) := rfl

theorem stepCore_rng (sut : String → List String × Bool) (sentinel : String)
    (derive : Bool) (st : CGState) (mu : String) (g2 : RNG) :
    (stepCore sut sentinel derive st mu g2).rng = g2 := rfl

/-- The per-iteration scope of a SUT adapter that raises on every input
before recording anything is exactly the sentinel branch. -/
theorem iterCoverage_raising (sentinel : String) (input : String) :
    iterCoverage (fun _ => ([], true)) sentinel input = [sentinel] := by
  simp [iterCoverage, dedupKeys, record, insertKey]

theorem raisingLoop_spec (mutate : String → RNG → Option (String × RNG))
    (hm : ∀ s g, ∃ r, mutate s g = some r) (sentinel : String) (derive : Bool) :
    ∀ (n : Nat) (st : CGState), st.seeds ≠ [] → st.covMap = [] → st.total = [] →
    ∃ st', guidedLoop mutate (fun _ => ([], true)) sentinel derive n st = some st' ∧
      st'.seeds ≠ [] ∧
      st'.history = st.history ++ List.replicate n 1 ∧
      st'.covMap = (if n = 0 then [] else [sentinel]) ∧
      st'.total = (if n = 0 then [] else [sentinel]) := by
  intro n
  induction n with
  | zero =>
    intro st hs hc ht
    exact ⟨st, rfl, hs, by simp, by simp [hc], by simp [ht]⟩
  | succ k ih =>
    intro st hs hc ht
    obtain ⟨st1, hst1, hs1, hh1, hc1, ht1⟩ := ih st hs hc ht
    obtain ⟨mu, g2, hstep⟩ := stepGuided_eq_some mutate hm _ sentinel derive st1 hs1
    have hcov2 : (stepCore (fun _ => ([], true)) sentinel derive st1 mu g2).covMap
        = [sentinel] := by
      rw [stepCore_covMap, iterCoverage_raising, hc1]
      by_cases hk : k = 0 <;> simp [hk, mergeCov, insertKey]
    have htot2 : (stepCore (fun _ => ([], true)) sentinel derive st1 mu g2).total
        = [sentinel] := by
      rw [stepCore_total, iterCoverage_raising, hc1, ht1]
      by_cases hk : k = 0 <;> cases derive <;> simp [hk, mergeCov, insertKey]
    refine ⟨stepCore (fun _ => ([], true)) sentinel derive st1 mu g2, ?_, ?_, ?_, ?_, ?_⟩
    · show (guidedLoop mutate (fun _ => ([], true)) sentinel derive k st).bind
        (stepGuided mutate (fun _ => ([], true)) sentinel derive) = _
      rw [hst1, option_bind_some2, hstep]
    · rw [stepCore_seeds]
      split_ifs
      · exact hs1
      · simp [hs1]
    · rw [stepCore_history, hcov2, hh1]
      rw [List.append_assoc]
      congr 1
      simp [List.replicate_succ']
    · simpa using hcov2
    · simpa using htot2

/-- Running the guided loop with the re-derived covered set (`maze.py`)
and with the incrementally tracked covered set
(`toy_lang.py`/`complex_input.py`) from matching campaign-start states
produces the same corpus, persistent map and history, and keeps the
tracked set extensionally equal to the persistent map's key set. -/
theorem guidedLoop_derive_agrees (mutate : String → RNG → Option (String × RNG))
    (hm : ∀ s g, ∃ r, mutate s g = some r)
    (sut : String → List String × Bool) (sentinel : String) :
    ∀ (n : Nat) (stD stI : CGState),
      stD.seeds = stI.seeds → stD.covMap = stI.covMap → stD.history = stI.history →
      stD.rng = stI.rng → stD.seeds ≠ [] →
      stD.total = stD.covMap → (∀ b, b ∈ stI.total ↔ b ∈ stI.covMap) →
      ∃ stD' stI',
        guidedLoop mutate sut sentinel true n stD = some stD' ∧
        guidedLoop mutate sut sentinel false n stI = some stI' ∧
        stD'.seeds = stI'.seeds ∧ stD'.covMap = stI'.covMap ∧
        stD'.history = stI'.history ∧ stD'.rng = stI'.rng ∧ stD'.seeds ≠ [] ∧
        stD'.total = stD'.covMap ∧ (∀ b, b ∈ stI'.total ↔ b ∈ stI'.covMap) := by
  intro n
  induction n with
  | zero =>
    intro stD stI h1 h2 h3 h4 h5 h6 h7
    exact ⟨stD, stI, rfl, rfl, h1, h2, h3, h4, h5, h6, h7⟩
  | succ k ih =>
    intro stD stI h1 h2 h3 h4 h5 h6 h7
    obtain ⟨stD1, stI1, hD1, hI1, e1, e2, e3, e4, e5, e6, e7⟩ :=
      ih stD stI h1 h2 h3 h4 h5 h6 h7
    obtain ⟨p, hp⟩ := choice_isSome stD1.rng e5
    rcases p with ⟨seed, g1⟩
    obtain ⟨q, hq⟩ := hm seed g1
    rcases q with ⟨mu, g2⟩
    have hpI : choice stI1.rng stI1.seeds = some (seed, g1) := by
      rw [← e4, ← e1]
      exact hp
    have hstepD : stepGuided mutate sut sentinel true stD1
        = some (stepCore sut sentinel true stD1 mu g2) := by
      unfold stepGuided
      rw [hp, option_bind_some]
      simp only []
      rw [hq, option_bind_some]
    have hstepI : stepGuided mutate sut sentinel false stI1
        = some (stepCore sut sentinel false stI1 mu g2) := by
      unfold stepGuided
      rw [hpI, option_bind_some]
      simp only []
      rw [hq, option_bind_some]
    have htotal_iff : ∀ b, b ∈ stD1.total ↔ b ∈ stI1.total := by
      intro b
      rw [e6, e2, e7 b]
    have hfilter : (iterCoverage sut sentinel mu).filter
        (fun b => decide (b ∉ stD1.total)) =
        (iterCoverage sut sentinel mu).filter
        (fun b => decide (b ∉ stI1.total)) := by
      apply List.filter_congr
      intro b _
      have := htotal_iff b
      by_cases hb : b ∈ stD1.total
      · simp [hb, this.mp hb]
      · have hnb : b ∉ stI1.total := fun h => hb (this.mpr h)
        simp [hb, hnb]
    refine ⟨stepCore sut sentinel true stD1 mu g2,
      stepCore sut sentinel false stI1 mu g2, ?_, ?_, ?_, ?_, ?_, ?_, ?_, ?_, ?_⟩
    · show (guidedLoop mutate sut sentinel true k stD).bind
        (stepGuided mutate sut sentinel true) = _
      rw [hD1, option_bind_some2, hstepD]
    · show (guidedLoop mutate sut sentinel false k stI).bind
        (stepGuided mutate sut sentinel false) = _
      rw [hI1, option_bind_some2, hstepI]
    · rw [stepCore_seeds, stepCore_seeds, hfilter, e1]
    · rw [stepCore_covMap, stepCore_covMap, e2]
    · rw [stepCore_history, stepCore_history, e3, stepCore_covMap, stepCore_covMap, e2]
    · rw [stepCore_rng, stepCore_rng]
    · rw [stepCore_seeds]
      split_ifs
      · exact e5
      · simp [e5]
    · rw [stepCore_total, if_pos rfl, stepCore_covMap]
    · intro b
      rw [stepCore_total, if_neg (by simp), stepCore_covMap, mem_mergeCov,
        List.mem_append, List.mem_filter]
      constructor
      · rintro (hb | ⟨hb, _⟩)
        · exact Or.inl ((e7 b).mp hb)
        · exact Or.inr hb
      · rintro (hb | hb)
        · exact Or.inl ((e7 b).mpr hb)
        · by_cases hbt : b ∈ stI1.total
          · exact Or.inl hbt
          · exact Or.inr ⟨hb, by simpa using hbt⟩

/-! ### Campaign-level facts for the maze driver -/

theorem generateRandomMazeString_total (g : RNG) :
    ∃ r, generateRandomMazeString g = some r := by
  obtain ⟨r, hr, _⟩ := generateRandomMazeString_spec g
  exact ⟨r, hr⟩

theorem mazeGuidedCampaign_spec (n : Nat) (g : RNG) :
    ∃ st, mazeGuidedCampaign n g = some st ∧
      st.history.length = n ∧ List.Chain' (· ≤ ·) st.history ∧
      5 ≤ st.seeds.length := by
  obtain ⟨r, hr, hrl⟩ := genSeedList_spec 5 g
  rcases r with ⟨seeds, g1⟩
  have hlen : seeds.length = 5 := hrl
  have hne : seeds ≠ [] := by
    intro h
    rw [h] at hlen
    simp at hlen
  obtain ⟨st, hst, hs, ⟨t, ht⟩, _, _, hhl, _, hchain⟩ :=
    guidedLoop_spec mutateMazeString mutateMazeString_total mazeSutExec "exception"
      true n ⟨seeds, [], [], [], g1⟩ hne
  refine ⟨st, ?_, by simpa using hhl, (hchain (by simp) (by simp)).2, ?_⟩
  · unfold mazeGuidedCampaign
    rw [hr, option_bind_some]
    simp only []
    exact hst
  · rw [ht]
    simp [hlen]

theorem mazePureCampaign_spec (n : Nat) (g : RNG) :
    ∃ st, mazePureCampaign n g = some st ∧ st.history.length = n ∧
      List.Chain' (· ≤ ·) st.history := by
  obtain ⟨st, hst, hhl, _, _, hchain⟩ :=
    pureLoop_spec generateRandomMazeString generateRandomMazeString_total
      mazeSutExec "exception" n ⟨[], [], g⟩
  exact ⟨st, hst, by simpa using hhl, (hchain (by simp) (by simp)).2⟩

theorem mazePureCampaign_succ (m : Nat) (g : RNG) :
    ∃ st st1, mazePureCampaign m g = some st ∧ mazePureCampaign (m + 1) g = some st1 ∧
      st1.history = st.history ++ [st1.covMap.length] := by
  obtain ⟨st, hst, _, _, _⟩ :=
    pureLoop_spec generateRandomMazeString generateRandomMazeString_total
      mazeSutExec "exception" m ⟨[], [], g⟩
  obtain ⟨st1, hstep, hh, _⟩ :=
    stepPure_some generateRandomMazeString generateRandomMazeString_total
      mazeSutExec "exception" st
  refine ⟨st, st1, hst, ?_, hh⟩
  unfold mazePureCampaign
  show (pureLoop generateRandomMazeString mazeSutExec "exception" m ⟨[], [], g⟩).bind
    (stepPure generateRandomMazeString mazeSutExec "exception") = some st1
  rw [hst, option_bind_some2, hstep]

theorem mazeGuidedCampaign_succ (m : Nat) (g : RNG) :
    ∃ st st1, mazeGuidedCampaign m g = some st ∧
      mazeGuidedCampaign (m + 1) g = some st1 ∧
      st1.history = st.history ++ [st1.covMap.length] := by
  obtain ⟨r, hr, hrl⟩ := genSeedList_spec 5 g
  rcases r with ⟨seeds, g1⟩
  have hlen : seeds.length = 5 := hrl
  have hne : seeds ≠ [] := by
    intro h
    rw [h] at hlen
    simp at hlen
  obtain ⟨st, hst, hs1, _, _, _, _, _, _⟩ :=
    guidedLoop_spec mutateMazeString mutateMazeString_total mazeSutExec "exception"
      true m ⟨seeds, [], [], [], g1⟩ hne
  obtain ⟨mu, g2, hstep⟩ :=
    stepGuided_eq_some mutateMazeString mutateMazeString_total mazeSutExec "exception"
      true st hs1
  refine ⟨st, stepCore mazeSutExec "exception" true st mu g2, ?_, ?_,
    stepCore_history _ _ _ _ _ _⟩
  · unfold mazeGuidedCampaign
    rw [hr, option_bind_some]
    simp only []
    exact hst
  · unfold mazeGuidedCampaign
    rw [hr, option_bind_some]
    simp only []
    show (guidedLoop mutateMazeString mazeSutExec "exception" true m
      ⟨seeds, [], [], [], g1⟩).bind
      (stepGuided mutateMazeString mazeSutExec "exception" true) = _
    rw [hst, option_bind_some2, hstep]

/-! ### Concrete random-source fixtures -/

/-- An unfavourable random source for the guided policy: all five seed
mazes come out as the easily solvable maze `"SF.\n...\n..."`, but the
single guided iteration deletes the first character of a seed, producing a
non-rectangular maze, while the single pure-random iteration generates the
solvable maze directly. -/
def cexPattern : List Nat := [0, 0, 0, 0, 0, 1, 50, 50, 50, 50, 50, 50, 50]

def cexStream : List Nat :=
  cexPattern ++ cexPattern ++ cexPattern ++ cexPattern ++ cexPattern ++ [0, 1, 0]

def gUnfavourable : RNG := ⟨fun i => cexStream.getD i 0, 0⟩

/-- The all-zero random source: every seed maze is `"S##\n###\n###"`
(start and finish positions collide, so no `'F'` is emitted). -/
def gAllZero : RNG := ⟨fun _ => 0, 0⟩

/-- The example maze of §8 of the specification. -/
def sampleMaze : String := "S.#.\n.#F.\n....\n"

/-! ### The claims -/

/-- C1: within one campaign the persistent coverage map never loses an
entry — the merged map's key set is exactly the union of the previous map
and the per-iteration scope (also when the scope brings no novelty), each
iteration appends the merged size to the history, and consequently the
history of every guided campaign (maze-style re-derived variant,
toy-style incremental variant, and the actual maze campaign) is
non-decreasing, for every iteration count and every random source. -/
theorem C1_coverage_merge_monotone :
    (∀ (sut : String → List String × Bool) (sentinel : String) (derive : Bool)
      (st : CGState) (mu : String) (g2 : RNG),
      (∀ b, b ∈ (stepCore sut sentinel derive st mu g2).covMap ↔
        (b ∈ st.covMap ∨ b ∈ iterCoverage sut sentinel mu)) ∧
      (stepCore sut sentinel derive st mu g2).history
        = st.history ++ [(stepCore sut sentinel derive st mu g2).covMap.length]) ∧
    (∀ (sut : String → List String × Bool) (sentinel : String) (s0 : String)
      (ss : List String) (g : RNG) (n : Nat),
      ∃ st, guidedLoop mutateMazeString sut sentinel true n ⟨s0 :: ss, [], [], [], g⟩
          = some st ∧ List.Chain' (· ≤ ·) st.history) ∧
    (∀ (sut : String → List String × Bool) (sentinel : String) (s0 : String)
      (ss : List String) (g : RNG) (n : Nat),
      ∃ st, guidedLoop mutateString sut sentinel false n ⟨s0 :: ss, [], [], [], g⟩
          = some st ∧ List.Chain' (· ≤ ·) st.history) ∧
    (∀ (n : Nat) (g : RNG), ∃ st, mazeGuidedCampaign n g = some st ∧
      List.Chain' (· ≤ ·) st.history) := by
  refine ⟨?_, ?_, ?_, ?_⟩
  · intro sut sentinel derive st mu g2
    refine ⟨?_, stepCore_history sut sentinel derive st mu g2⟩
    intro b
    rw [stepCore_covMap, mem_mergeCov]
  · intro sut sentinel s0 ss g n
    obtain ⟨st, hst, _, _, _, _, _, _, hchain⟩ :=
      guidedLoop_spec mutateMazeString mutateMazeString_total sut sentinel true n
        ⟨s0 :: ss, [], [], [], g⟩ (by simp)
    exact ⟨st, hst, (hchain (by simp) (by simp)).2⟩
  · intro sut sentinel s0 ss g n
    obtain ⟨st, hst, _, _, _, _, _, _, hchain⟩ :=
      guidedLoop_spec mutateString mutateString_total sut sentinel false n
        ⟨s0 :: ss, [], [], [], g⟩ (by simp)
    exact ⟨st, hst, (hchain (by simp) (by simp)).2⟩
  · intro n g
    obtain ⟨st, hst, _, hchain, _⟩ := mazeGuidedCampaign_spec n g
    exact ⟨st, hst, hchain⟩

/-- C1 witness: the monotonicity part evaluated on the real maze campaign
with one iteration of the all-zero random source. -/
theorem C1_witness :
    ∃ st, mazeGuidedCampaign 1 gAllZero = some st ∧
      List.Chain' (· ≤ ·) st.history :=
  C1_coverage_merge_monotone.2.2.2 1 gAllZero

/-- C2 (amended): mutating the empty seed never raises and never indexes
out of bounds for any of the three mutators and any random source, and
`mutate_maze_string` always synthesizes a non-empty string; but
`mutate_string` can return the empty string (its fallback
`random_code_string(10)` may draw length 0) and `mutate_input` returns the
empty string whenever the delete mutation is chosen for the synthesized
single-character input. -/
theorem C2_empty_seed_mutation :
    ∀ g : RNG,
      (∃ r : String × RNG, mutateMazeString "" g = some r ∧ 1 ≤ r.1.data.length) ∧
      (∃ r, mutateString "" g = some r) ∧
      (∃ r, mutateInput "" g = some r) :=
  fun g => ⟨mutateMazeString_empty g, mutateString_total "" g, mutateInput_total "" g⟩

/-- C2 counterexample: with the constant-1 stream `mutate_input("")`
synthesizes a one-character input, draws the delete mutation, and returns
the empty string; with the constant-0 stream `mutate_string("")` draws
fallback length 0 and returns the empty string.  Both violate the claimed
length bound of 1. -/
theorem C2_counterexample :
    (mutateInput "" ⟨fun _ => 1, 0⟩).map (fun r => r.1.data.length) = some 0 ∧
    (mutateString "" ⟨fun _ => 0, 0⟩).map (fun r => r.1.data.length) = some 0 ∧
    ¬ (1 ≤ (0 : Nat)) := by
  exact ⟨by decide, by decide, by omega⟩

/-- C3: with a SUT adapter that raises on every input, every guided
campaign (either covered-set variant, either sentinel name, any non-empty
seed corpus, any random source) still completes all `n` iterations — the
history is exactly `n` entries, all equal to 1 — and the final coverage
map contains only the sentinel branch. -/
theorem C3_raising_sut_campaign :
    ∀ (sentinel : String) (derive : Bool) (s0 : String) (ss : List String)
      (g : RNG) (n : Nat),
      (∃ st, guidedLoop mutateMazeString (fun _ => ([], true)) sentinel derive n
          ⟨s0 :: ss, [], [], [], g⟩ = some st ∧
        st.history = List.replicate n 1 ∧
        st.covMap = (if n = 0 then [] else [sentinel])) ∧
      (∃ st, guidedLoop mutateString (fun _ => ([], true)) sentinel derive n
          ⟨s0 :: ss, [], [], [], g⟩ = some st ∧
        st.history = List.replicate n 1 ∧
        st.covMap = (if n = 0 then [] else [sentinel])) := by
  intro sentinel derive s0 ss g n
  constructor
  · obtain ⟨st, hst, _, hh, hc, _⟩ :=
      raisingLoop_spec mutateMazeString mutateMazeString_total sentinel derive n
        ⟨s0 :: ss, [], [], [], g⟩ (by simp) rfl rfl
    exact ⟨st, hst, by simpa using hh, hc⟩
  · obtain ⟨st, hst, _, hh, hc, _⟩ :=
      raisingLoop_spec mutateString mutateString_total sentinel derive n
        ⟨s0 :: ss, [], [], [], g⟩ (by simp) rfl rfl
    exact ⟨st, hst, by simpa using hh, hc⟩

/-- C4: in every guided iteration the mutated input is appended to the
corpus exactly when its per-iteration scope contains a branch outside the
tracked covered set (and otherwise the corpus is unchanged), and over a
whole campaign the corpus only ever grows by appending at the end — the
initial seed corpus stays a prefix and the final length is at least the
initial length — for the maze driver (re-derived variant) and the
complex-input driver (incremental variant). -/
theorem C4_corpus_growth :
    (∀ (sut : String → List String × Bool) (sentinel : String) (derive : Bool)
      (st : CGState) (mu : String) (g2 : RNG),
      ((stepCore sut sentinel derive st mu g2).seeds = st.seeds ++ [mu] ∧
        ∃ b, b ∈ iterCoverage sut sentinel mu ∧ b ∉ st.total) ∨
      ((stepCore sut sentinel derive st mu g2).seeds = st.seeds ∧
        ∀ b, b ∈ iterCoverage sut sentinel mu → b ∈ st.total)) ∧
    (∀ (sut : String → List String × Bool) (sentinel : String) (s0 : String)
      (ss : List String) (g : RNG) (n : Nat),
      ∃ st, guidedLoop mutateMazeString sut sentinel true n ⟨s0 :: ss, [], [], [], g⟩
          = some st ∧ (∃ t, st.seeds = (s0 :: ss) ++ t) ∧
        (s0 :: ss).length ≤ st.seeds.length) ∧
    (∀ (sut : String → List String × Bool) (sentinel : String) (s0 : String)
      (ss : List String) (g : RNG) (n : Nat),
      ∃ st, guidedLoop mutateInput sut sentinel false n ⟨s0 :: ss, [], [], [], g⟩
          = some st ∧ (∃ t, st.seeds = (s0 :: ss) ++ t) ∧
        (s0 :: ss).length ≤ st.seeds.length) := by
  refine ⟨stepCore_seeds_cases, ?_, ?_⟩
  · intro sut sentinel s0 ss g n
    obtain ⟨st, hst, _, ⟨t, ht⟩, _, _, _, _, _⟩ :=
      guidedLoop_spec mutateMazeString mutateMazeString_total sut sentinel true n
        ⟨s0 :: ss, [], [], [], g⟩ (by simp)
    exact ⟨st, hst, ⟨t, ht⟩, by rw [ht]; simp⟩
  · intro sut sentinel s0 ss g n
    obtain ⟨st, hst, _, ⟨t, ht⟩, _, _, _, _, _⟩ :=
      guidedLoop_spec mutateInput mutateInput_total sut sentinel false n
        ⟨s0 :: ss, [], [], [], g⟩ (by simp)
    exact ⟨st, hst, ⟨t, ht⟩, by rw [ht]; simp⟩

/-- C4 witness: the iff-append part evaluated at a concrete state with the
always-raising SUT, where novelty holds and the corpus grows. -/
theorem C4_witness :
    ((stepCore (fun _ => ([], true)) "exception" true ⟨["S"], [], [], [], gAllZero⟩
        "x" gAllZero).seeds = ["S"] ++ ["x"] ∧
      ∃ b, b ∈ iterCoverage (fun _ => ([], true)) "exception" "x" ∧
        b ∉ (⟨["S"], [], [], [], gAllZero⟩ : CGState).total) ∨
    ((stepCore (fun _ => ([], true)) "exception" true ⟨["S"], [], [], [], gAllZero⟩
        "x" gAllZero).seeds = ["S"] ∧
      ∀ b, b ∈ iterCoverage (fun _ => ([], true)) "exception" "x" →
        b ∈ (⟨["S"], [], [], [], gAllZero⟩ : CGState).total) :=
  C4_corpus_growth.1 (fun _ => ([], true)) "exception" true
    ⟨["S"], [], [], [], gAllZero⟩ "x" gAllZero

/-- C5: the campaigns are pure functions of the configuration and the
random source — two runs with extensionally equal random streams produce
identical results, in particular identical coverage histories. -/
theorem C5_determinism :
    ∀ (s1 s2 : Nat → Nat) (p : Nat) (n : Nat), (∀ i, s1 i = s2 i) →
      mazeGuidedCampaign n ⟨s1, p⟩ = mazeGuidedCampaign n ⟨s2, p⟩ ∧
      mazePureCampaign n ⟨s1, p⟩ = mazePureCampaign n ⟨s2, p⟩ := by
  intro s1 s2 p n h
  have hs : s1 = s2 := funext h
  subst hs
  exact ⟨rfl, rfl⟩

/-- C5 witness: determinism applied to two copies of the all-zero stream
over one iteration. -/
theorem C5_witness :
    mazeGuidedCampaign 1 ⟨fun _ => 0, 0⟩ = mazeGuidedCampaign 1 ⟨fun _ => 0, 0⟩ ∧
    mazePureCampaign 1 ⟨fun _ => 0, 0⟩ = mazePureCampaign 1 ⟨fun _ => 0, 0⟩ :=
  C5_determinism (fun _ => 0) (fun _ => 0) 0 1 (fun _ => rfl)

set_option maxRecDepth 20000 in
/-- C6 counterexample: for the concrete random source `gUnfavourable` and a
one-iteration budget on the maze SUT, the pure-random campaign ends with
coverage 6 while the coverage-guided campaign ends with coverage 3, so the
claimed inequality fails for this fixed seed. -/
theorem C6_counterexample :
    ((mazePureCampaign 1 gUnfavourable).map fun st => st.history) = some [6] ∧
    ((mazeGuidedCampaign 1 gUnfavourable).map fun st => st.history) = some [3] ∧
    ¬ ((6 : Nat) ≤ 3) := by
  exact ⟨by decide, by decide, by omega⟩

set_option maxRecDepth 20000 in
/-- C6 (amended): the final pure-random coverage is at most the final
coverage-guided coverage for specific seeded fixtures — here the all-zero
stream over a one-iteration budget, giving 3 against 4 — but not for every
random source. -/
theorem C6_seeded_fixture :
    ((mazePureCampaign 1 gAllZero).map fun st => st.history) = some [3] ∧
    ((mazeGuidedCampaign 1 gAllZero).map fun st => st.history) = some [4] ∧
    (3 : Nat) ≤ 4 := by
  exact ⟨by decide, by decide, by omega⟩

/-- C7 (amended): every per-iteration campaign loop appends exactly one
history entry per iteration — the history length equals the iteration
count, and the history after `n + 1` iterations extends the history after
`n` iterations with exactly the merged coverage-map size, so no entry is
ever mutated retroactively.  This holds for the pure-random loop with any
always-returning generator, for the guided loop in either covered-set
variant with any always-returning mutator (covering the maze, toy-language
and complex-input drivers), for any SUT adapter, sentinel, seed corpus and
random stream, and concretely for both `maze.py` campaigns; the calculator
drivers (`cgf_cal.py`, `randomfz_cal.py`) instead log only every 10th
(resp. 50th) iteration. -/
theorem C7_history_per_iteration :
    (∀ (gen : RNG → Option (String × RNG)), (∀ g0, ∃ r, gen g0 = some r) →
      ∀ (sut : String → List String × Bool) (sentinel : String) (g : RNG) (n : Nat),
      (∃ st, pureLoop gen sut sentinel n ⟨[], [], g⟩ = some st ∧
        st.history.length = n) ∧
      (∃ st st1, pureLoop gen sut sentinel n ⟨[], [], g⟩ = some st ∧
        pureLoop gen sut sentinel (n + 1) ⟨[], [], g⟩ = some st1 ∧
        st1.history = st.history ++ [st1.covMap.length])) ∧
    (∀ (mutate : String → RNG → Option (String × RNG)),
      (∀ s g0, ∃ r, mutate s g0 = some r) →
      ∀ (sut : String → List String × Bool) (sentinel : String) (derive : Bool)
        (s0 : String) (ss : List String) (g : RNG) (n : Nat),
      (∃ st, guidedLoop mutate sut sentinel derive n ⟨s0 :: ss, [], [], [], g⟩
          = some st ∧ st.history.length = n) ∧
      (∃ st st1, guidedLoop mutate sut sentinel derive n ⟨s0 :: ss, [], [], [], g⟩
          = some st ∧
        guidedLoop mutate sut sentinel derive (n + 1) ⟨s0 :: ss, [], [], [], g⟩
          = some st1 ∧
        st1.history = st.history ++ [st1.covMap.length])) ∧
    (∀ (n : Nat) (g : RNG), ∃ st, mazePureCampaign n g = some st ∧
      st.history.length = n) ∧
    (∀ (m : Nat) (g : RNG), ∃ st st1,
      mazePureCampaign m g = some st ∧ mazePureCampaign (m + 1) g = some st1 ∧
      st1.history = st.history ++ [st1.covMap.length]) ∧
    (∀ (n : Nat) (g : RNG), ∃ st, mazeGuidedCampaign n g = some st ∧
      st.history.length = n) ∧
    (∀ (m : Nat) (g : RNG), ∃ st st1,
      mazeGuidedCampaign m g = some st ∧ mazeGuidedCampaign (m + 1) g = some st1 ∧
      st1.history = st.history ++ [st1.covMap.length]) := by
  refine ⟨?_, ?_, ?_, mazePureCampaign_succ, ?_, mazeGuidedCampaign_succ⟩
  · intro gen hg sut sentinel g n
    constructor
    · obtain ⟨st, hst, hl, _, _, _⟩ := pureLoop_spec gen hg sut sentinel n ⟨[], [], g⟩
      exact ⟨st, hst, by simpa using hl⟩
    · obtain ⟨st, hst, _, _, _, _⟩ := pureLoop_spec gen hg sut sentinel n ⟨[], [], g⟩
      obtain ⟨st1, hstep, hh, _⟩ := stepPure_some gen hg sut sentinel st
      refine ⟨st, st1, hst, ?_, hh⟩
      show (pureLoop gen sut sentinel n ⟨[], [], g⟩).bind (stepPure gen sut sentinel)
        = some st1
      rw [hst, option_bind_some2, hstep]
  · intro mutate hm sut sentinel derive s0 ss g n
    constructor
    · obtain ⟨st, hst, _, _, _, _, hl, _, _⟩ :=
        guidedLoop_spec mutate hm sut sentinel derive n
          ⟨s0 :: ss, [], [], [], g⟩ (by simp)
      exact ⟨st, hst, by simpa using hl⟩
    · obtain ⟨st, hst, hs1, _, _, _, _, _, _⟩ :=
        guidedLoop_spec mutate hm sut sentinel derive n
          ⟨s0 :: ss, [], [], [], g⟩ (by simp)
      obtain ⟨mu, g2, hstep⟩ := stepGuided_eq_some mutate hm sut sentinel derive st hs1
      refine ⟨st, stepCore sut sentinel derive st mu g2, hst, ?_,
        stepCore_history _ _ _ _ _ _⟩
      show (guidedLoop mutate sut sentinel derive n ⟨s0 :: ss, [], [], [], g⟩).bind
        (stepGuided mutate sut sentinel derive) = _
      rw [hst, option_bind_some2, hstep]
  · intro n g
    obtain ⟨st, hst, hl, _⟩ := mazePureCampaign_spec n g
    exact ⟨st, hst, hl⟩
  · intro n g
    obtain ⟨st, hst, hl, _, _⟩ := mazeGuidedCampaign_spec n g
    exact ⟨st, hst, hl⟩

/-- C7 witness: the generic per-iteration laws applied to the maze
generator and the maze mutator (totality discharged by the corresponding
lemmas) at one iteration of the all-zero stream. -/
theorem C7_witness :
    ((∃ st, pureLoop generateRandomMazeString mazeSutExec "exception" 1
        ⟨[], [], gAllZero⟩ = some st ∧ st.history.length = 1) ∧
      (∃ st st1, pureLoop generateRandomMazeString mazeSutExec "exception" 1
          ⟨[], [], gAllZero⟩ = some st ∧
        pureLoop generateRandomMazeString mazeSutExec "exception" (1 + 1)
          ⟨[], [], gAllZero⟩ = some st1 ∧
        st1.history = st.history ++ [st1.covMap.length])) ∧
    ((∃ st, guidedLoop mutateMazeString mazeSutExec "exception" true 1
        ⟨["S"], [], [], [], gAllZero⟩ = some st ∧ st.history.length = 1) ∧
      (∃ st st1, guidedLoop mutateMazeString mazeSutExec "exception" true 1
          ⟨["S"], [], [], [], gAllZero⟩ = some st ∧
        guidedLoop mutateMazeString mazeSutExec "exception" true (1 + 1)
          ⟨["S"], [], [], [], gAllZero⟩ = some st1 ∧
        st1.history = st.history ++ [st1.covMap.length])) :=
  ⟨C7_history_per_iteration.1 generateRandomMazeString
      generateRandomMazeString_total mazeSutExec "exception" gAllZero 1,
    C7_history_per_iteration.2.1 mutateMazeString mutateMazeString_total
      mazeSutExec "exception" true "S" [] gAllZero 1⟩

set_option maxRecDepth 20000 in
/-- C7 counterexample: running the `cgf_cal.py` skeleton for 500
iterations logs 50 history entries, not 500 (one per iteration), and the
`randomfz_cal.py` skeleton logs 20 entries for 1000 tests. -/
theorem C7_counterexample :
    (cgfCoverageProgress (fun _ => []) 500).length = 50 ∧
    (cgfCoverageProgress (fun _ => []) 500).length ≠ 500 ∧
    (randomfzProgress (fun _ => 0) 1000).length = 20 := by
  exact ⟨by decide, by decide, by decide⟩

set_option maxRecDepth 20000 in
/-- C8: the sample maze parses successfully (recording `maze_parsed`) and
the parsed maze's BFS finds a path (recording `path_found`). -/
theorem C8_sample_maze :
    ∃ m : Maze, (Maze.fromString sampleMaze []).1 = some m ∧
      "maze_parsed" ∈ (Maze.fromString sampleMaze []).2 ∧
      (m.findShortestPath (Maze.fromString sampleMaze []).2).1.isSome = true ∧
      "path_found" ∈ (m.findShortestPath (Maze.fromString sampleMaze []).2).2 := by
  refine ⟨⟨[['S', '.', '#', '.'], ['.', '#', 'F', '.'], ['.', '.', '.', '.']],
    (0, 0), (1, 2)⟩, ?_, ?_, ?_, ?_⟩ <;> decide

/-- C9: the maze driver's re-derivation of the covered set from the merged
map is behaviourally equivalent to the incremental tracking of the other
drivers — at every iteration boundary the tracked set equals the key set
of the persistent map, and corpus, map and history agree between the two
variants, for every iteration count, seed corpus and random source on the
real maze SUT. -/
theorem C9_rederive_equivalence :
    ∀ (n : Nat) (s0 : String) (ss : List String) (g : RNG),
      ∃ stD stI,
        guidedLoop mutateMazeString mazeSutExec "exception" true n
          ⟨s0 :: ss, [], [], [], g⟩ = some stD ∧
        guidedLoop mutateMazeString mazeSutExec "exception" false n
          ⟨s0 :: ss, [], [], [], g⟩ = some stI ∧
        stD.seeds = stI.seeds ∧ stD.history = stI.history ∧
        stD.covMap = stI.covMap ∧ stD.total = stD.covMap ∧
        (∀ b, b ∈ stI.total ↔ b ∈ stI.covMap) := by
  intro n s0 ss g
  obtain ⟨stD, stI, hD, hI, e1, e2, e3, _, _, e6, e7⟩ :=
    guidedLoop_derive_agrees mutateMazeString mutateMazeString_total
      mazeSutExec "exception" n ⟨s0 :: ss, [], [], [], g⟩ ⟨s0 :: ss, [], [], [], g⟩
      rfl rfl rfl rfl (by simp) rfl (by simp)
  exact ⟨stD, stI, hD, hI, e1, e3, e2, e6, e7⟩

/-- C9 witness: the equivalence evaluated at one iteration from the
singleton corpus with the all-zero random source. -/
theorem C9_witness :
    ∃ stD stI,
      guidedLoop mutateMazeString mazeSutExec "exception" true 1
        ⟨["S"], [], [], [], gAllZero⟩ = some stD ∧
      guidedLoop mutateMazeString mazeSutExec "exception" false 1
        ⟨["S"], [], [], [], gAllZero⟩ = some stI ∧
      stD.seeds = stI.seeds ∧ stD.history = stI.history ∧
      stD.covMap = stI.covMap ∧ stD.total = stD.covMap ∧
      (∀ b, b ∈ stI.total ↔ b ∈ stI.covMap) :=
  C9_rederive_equivalence 1 "S" [] gAllZero

/-- C10: `process_input` is total — on every input string (including the
empty string) it returns a non-empty result and never raises — and every
input of length below 3 takes the early return: the result starts with
"Too short." and the only branches recorded are `start`, `len_short`, and
`empty`/`not_empty` (branches 2 through 10 are not evaluated). -/
theorem C10_process_input_total :
    ∀ (data : String) (cov : List String),
      ∃ res, processInput data cov = some res ∧ res.2.data ≠ [] ∧
        (data.data.length < 3 →
          (∃ t, res.2 = "Too short." ++ t) ∧
          (res.1 = cov ++ ["start", "len_short", "empty"] ∨
            res.1 = cov ++ ["start", "len_short", "not_empty"])) := by
  have key : ∀ (s t : String), s.data ≠ [] → (s ++ t).data ≠ [] := by
    intro s t hs h
    rw [String.data_append] at h
    exact hs (List.append_eq_nil.mp h).1
  intro data cov
  by_cases h3 : data.data.length < 3
  · by_cases h0 : data.data.length = 0
    · have heq : processInput data cov
          = some (record (record (record cov "start") "len_short") "empty",
            "Too short." ++ " (empty)") := by
        unfold processInput
        rw [if_pos h3, if_pos h0]
      refine ⟨_, heq, key "Too short." " (empty)" (by decide),
        fun _ => ⟨⟨" (empty)", rfl⟩, Or.inl ?_⟩⟩
      simp [record]
    · have heq : processInput data cov
          = some (record (record (record cov "start") "len_short") "not_empty",
            "Too short.") := by
        unfold processInput
        rw [if_pos h3, if_neg h0]
      refine ⟨_, heq, ?_, fun _ => ⟨⟨"", by simp⟩, Or.inr ?_⟩⟩
      · show ("Too short." : String).data ≠ []
        decide
      simp [record]
  · obtain ⟨c0, rest, hd⟩ : ∃ c0 rest, data.data = c0 :: rest := by
      cases hc : data.data with
      | nil =>
        exfalso
        apply h3
        rw [hc]
        simp
      | cons c0 rest => exact ⟨c0, rest, rfl⟩
    rw [hd] at h3
    unfold processInput
    rw [hd]
    rw [if_neg h3]
    refine ⟨_, rfl, ?_, fun hlt => absurd hlt h3⟩
    apply key
    rcases Bool.eq_false_or_eq_true c0.isAlpha with ha | ha
    · rw [ha]
      show ("Starts with alpha. " : String).data ≠ []
      decide
    · rw [ha]
      show ("Does not start with alpha. " : String).data ≠ []
      decide

/-- C10 witness: the theorem applied to the empty input, whose short-path
hypothesis is discharged by computation. -/
theorem C10_witness :
    ∃ res, processInput "" [] = some res ∧ (∃ t, res.2 = "Too short." ++ t) := by
  obtain ⟨res, h1, _, h3⟩ := C10_process_input_total "" []
  exact ⟨res, h1, (h3 (by decide)).1⟩

end S2P
